import Mathlib

/-!
Verification development for the fetch-crypto-data service.

The definitions below are a shallow embedding of the repository's Python
sources (`app/db.py`, `app/utils.py`, `app/main.py`):

* the sqlite ticker store (`secret_tickers` table with
  `PRIMARY KEY (secret, ticker)` and `INSERT OR IGNORE` writes) is embedded
  as an insertion-ordered association list of `(secret, ticker)` pairs;
* numbers from the quote provider are embedded as rationals,
  absent JSON fields as `Option.none`;
* the v2 ticker-resolution logic of `get_data_v2` is embedded as a pure
  function threading the store state, plus a variant in the `Except` monad
  that records that exceptions raised by `add_ticker` propagate (the code
  has no try/except around the persistence loop);
* `build_crypto_table` (including its column derivation from
  `model_dump(exclude_none=True)` and the final length-mismatch
  `ValueError` check) is embedded over an explicit configuration record;
* the archive packager `zip_csv_and_xlsx` is embedded in a state-passing
  style over the dataframe so that the absence of in-place mutation
  (pandas `sort_values` is called without `inplace`) is visible.
-/

namespace CryptoApp

/-! ### app/db.py — the ticker store

`Store` models the `secret_tickers` sqlite table: a list of
`(secret, ticker)` rows in insertion (rowid) order.  The primary key
`(secret, ticker)` means a well-formed table has no duplicate rows. -/

abbrev Store := List (String × String)

/-- `add_ticker` from `app/db.py`: `INSERT OR IGNORE` on the primary key
`(secret, ticker)` — appends the row unless it is already present. -/
def add_ticker (st : Store) (secret ticker : String) : Store :=
  if (secret, ticker) ∈ st then st else st ++ [(secret, ticker)]

/-- `get_tickers` from `app/db.py`: `SELECT ticker FROM secret_tickers
WHERE secret = ?`, rows in rowid (insertion) order. -/
def get_tickers (st : Store) (secret : String) : List String :=
  (st.filter (fun p => p.1 = secret)).map Prod.snd

/-! ### String helpers mirroring the Python string methods used -/

/-- Python `str.strip()`: drop leading and trailing whitespace. -/
def pyStrip (s : String) : String :=
  ⟨((s.data.dropWhile Char.isWhitespace).reverse.dropWhile Char.isWhitespace).reverse⟩

/-- Helper for `pySplitComma`: accumulates the current piece (reversed). -/
def splitCommaAux : List Char → List Char → List String
  | [], acc => [⟨acc.reverse⟩]
  | c :: cs, acc =>
    if c = ',' then ⟨acc.reverse⟩ :: splitCommaAux cs [] else splitCommaAux cs (c :: acc)

/-- Python `s.split(",")` (note that `"".split(",") == [""]`). -/
def pySplitComma (s : String) : List String :=
  splitCommaAux s.data []

/-- The ticker parsing used twice in `get_data_v2`
(`[t.strip() for t in raw.split(",") if t.strip()]`). -/
def parseTickers (raw : String) : List String :=
  ((pySplitComma raw).map pyStrip).filter (fun t => t ≠ "")

/-- Python truthiness of an `Optional[str]`: `None` and `""` are falsy. -/
def truthy (o : Option String) : Bool :=
  o.getD "" ≠ ""

/-- Python `s.split(" (")`: split on every occurrence of the two-character
pattern, left to right. -/
def splitSpaceParenAux : List Char → List Char → List String
  | [], acc => [⟨acc.reverse⟩]
  | ' ' :: '(' :: cs, acc => ⟨acc.reverse⟩ :: splitSpaceParenAux cs []
  | c :: cs, acc => splitSpaceParenAux cs (c :: acc)

/-- Python `s.split(" (")`. -/
def pySplitSpaceParen (s : String) : List String :=
  splitSpaceParenAux s.data []

/-- `get_token_symbols` from `app/utils.py`: take the piece after the first
`" ("` (Python `split(" (")[1]`) and delete the `(` and `)` characters
(`replace("(", "").replace(")", "")`).  Python would raise `IndexError` on
a token without `" ("`; the embedding returns `""` there — the configured
token list always contains `" ("`. -/
def get_token_symbols (tokens : List String) : List String :=
  tokens.map (fun token =>
    ⟨(((pySplitSpaceParen token).getD 1 "").data.filter (fun c => c ≠ '(')).filter
        (fun c => c ≠ ')')⟩)

/-- Python `dict.fromkeys` deduplication, first occurrence kept:
`seen` is the set of already emitted elements. -/
def pydedupAux : List String → List String → List String
  | [], _ => []
  | x :: xs, seen =>
    if x ∈ seen then pydedupAux xs seen else x :: pydedupAux xs (x :: seen)

/-- `list(dict.fromkeys(l))`: deduplicate preserving first-occurrence order. -/
def pydedup (l : List String) : List String :=
  pydedupAux l []

/-! ### app/main.py — v2 ticker resolution (`get_data_v2`, steps 1–3 plus
deduplication and fallback).  `cp` is `SETTINGS.CP_SECRET`, `defaults` is
`SETTINGS.DEFAULT_TOKENS_NEW`; both live in the missing `app/config.py`
and are taken as parameters. -/

def fallbackTickers : List String := ["BTC", "ETH", "PI"]

/-- The persistence loop of `get_data_v2`:
`for t in new_tickers: add_ticker(secret, t)`. -/
def addAll (st : Store) (s : String) (ts : List String) : Store :=
  ts.foldl (fun st t => add_ticker st s t) st

/-- The ticker-resolution portion of `get_data_v2` in `app/main.py`:
returns the final deduplicated ticker list and the store after the
persistence writes. -/
def resolveV2 (cp : String) (defaults : List String) (store : Store)
    (secret tickers : Option String) : List String × Store :=
  let final1 := if secret = some cp then get_token_symbols defaults else []
  let store2 :=
    if truthy secret then
      (if truthy tickers then
        addAll store (secret.getD "") (parseTickers (tickers.getD ""))
      else store)
    else store
  let final2 :=
    if truthy secret then final1 ++ get_tickers store2 (secret.getD "") else final1
  let final3 :=
    if truthy secret then final2
    else (if truthy tickers then final2 ++ parseTickers (tickers.getD "")
          else fallbackTickers)
  let unique := pydedup final3
  (if unique = [] then fallbackTickers else unique, store2)

/-- The same resolution logic with a fallible persistence write `addT`.
The Python code has no `try/except` around the `add_ticker` loop (and
`add_ticker` itself only has `try/finally`), so a raised exception
propagates; this is mirrored by the `Except` monad with no catch. -/
def resolveV2E (cp : String) (defaults : List String)
    (addT : Store → String → String → Except String Store) (store : Store)
    (secret tickers : Option String) : Except String (List String × Store) := do
  let final1 := if secret = some cp then get_token_symbols defaults else []
  let store2 ←
    if truthy secret then
      (if truthy tickers then
        (parseTickers (tickers.getD "")).foldlM
          (fun st t => addT st (secret.getD "") t) store
      else pure store)
    else pure store
  let final2 :=
    if truthy secret then final1 ++ get_tickers store2 (secret.getD "") else final1
  let final3 :=
    if truthy secret then final2
    else (if truthy tickers then final2 ++ parseTickers (tickers.getD "")
          else fallbackTickers)
  let unique := pydedup final3
  pure (if unique = [] then fallbackTickers else unique, store2)

/-- A persistence backend whose write always fails, standing for a sqlite
error (for example `OperationalError: database is locked`). -/
def add_ticker_failing : Store → String → String → Except String Store :=
  fun _ _ _ => Except.error ("database write failure")

/-- The accumulated ticker sequence as the spec words it (steps 1-3 of the
resolution algorithm): default-token symbols when the secret is the
distinguished one, then the persisted set read back after the writes when
a secret is present, then the directly supplied tickers (or the literal
fallback) when no secret is present.  This definition follows the spec's
words; the claims compare the code's `resolveV2` against it. -/
def specAccum (cp : String) (defaults : List String) (store : Store)
    (secret tickers : Option String) : List String :=
  (if secret = some cp then get_token_symbols defaults else []) ++
  (if truthy secret then
    get_tickers
      (if truthy tickers then
        addAll store (secret.getD "") (parseTickers (tickers.getD ""))
      else store)
      (secret.getD "")
  else []) ++
  (if truthy secret then []
   else if truthy tickers then parseTickers (tickers.getD "")
   else fallbackTickers)

/-! ### app/utils.py — `build_crypto_table`

Quote-provider numbers are embedded as rationals; a JSON field that is
absent is `Option.none` (Python `dict.get` then yields the supplied
default / `None`). -/

/-- A cell of the produced table: Python puts strings, numbers and `None`
into the column lists. -/
inductive CellVal where
  | str (s : String)
  | num (q : ℚ)
  | null
deriving DecidableEq, Repr

/-- The `quote.USD` block of one provider entry. -/
structure Quote where
  price : Option ℚ
  market_cap : Option ℚ
  market_cap_dominance : Option ℚ
  volume_24h : Option ℚ
  volume_change_24h : Option ℚ
deriving DecidableEq, Repr

/-- One provider entry (`data[symbol]` in the response).  A missing
`quote`/`USD` block is represented by a `Quote` with all fields `none`,
which is what the chained `crypto.get("quote", {}).get("USD", {})`
produces. -/
structure Crypto where
  name : Option String
  symbol : Option String
  token_address : Option String
  circulating_supply : Option ℚ
  total_supply : Option ℚ
  quote : Quote
deriving DecidableEq, Repr

def optCell (o : Option String) : CellVal :=
  match o with
  | some s => CellVal.str s
  | none => CellVal.null

def numCell (o : Option ℚ) : CellVal :=
  match o with
  | some q => CellVal.num q
  | none => CellVal.null

/-- Modelled from the spec: the column-selection configuration
(`TableFieldsAndTickers` / `V2DownloadRequest` in the missing
`app/validators.py`).  The spec describes it as "a flat set of named
boolean (or optional) fields, one per potential output column (e.g. price,
market cap, volume-24h, supply percent, token address)" plus the two
reserved resolution inputs `tickers` and `secret`; the boolean field names
are the ones `build_crypto_table` reads, and the field declaration order is
taken to be the order in which `build_crypto_table` consumes them. -/
structure Model where
  price : Option Bool
  token_address : Option Bool
  market_cap_abbrv : Option Bool
  market_cap : Option Bool
  market_cap_dominance : Option Bool
  volume_24h : Option Bool
  circulating_supply : Option Bool
  total_supply : Option Bool
  volume_change_24h : Option Bool
  supply_percent : Option Bool
  tickers : Option String
  secret : Option String
deriving DecidableEq, Repr

/-- A value of `model.model_dump(exclude_none=True)`: booleans from the
column flags, strings from `tickers`/`secret`. -/
inductive PyVal where
  | pybool (b : Bool)
  | pystr (s : String)
deriving DecidableEq, Repr

def boolEntry (k : String) (v : Option Bool) : List (String × PyVal) :=
  match v with
  | some b => [(k, PyVal.pybool b)]
  | none => []

def strEntry (k : String) (v : Option String) : List (String × PyVal) :=
  match v with
  | some s => [(k, PyVal.pystr s)]
  | none => []

/-- `model.model_dump(exclude_none=True)`: fields in declaration order,
`None`-valued fields omitted. -/
def model_dump (m : Model) : List (String × PyVal) :=
  boolEntry ("price") m.price ++
  boolEntry ("token_address") m.token_address ++
  boolEntry ("market_cap_abbrv") m.market_cap_abbrv ++
  boolEntry ("market_cap") m.market_cap ++
  boolEntry ("market_cap_dominance") m.market_cap_dominance ++
  boolEntry ("volume_24h") m.volume_24h ++
  boolEntry ("circulating_supply") m.circulating_supply ++
  boolEntry ("total_supply") m.total_supply ++
  boolEntry ("volume_change_24h") m.volume_change_24h ++
  boolEntry ("supply_percent") m.supply_percent ++
  strEntry ("tickers") m.tickers ++
  strEntry ("secret") m.secret

/-- Python `value != False`: only the boolean `False` compares equal to
`False` (a string never does). -/
def notFalse : PyVal → Bool
  | PyVal.pybool b => b
  | PyVal.pystr _ => true

/-- Python `str.title()` restricted to its cased/uncased distinction on
letters: a letter is uppercased when the previous character is not a
letter, lowercased otherwise. -/
def pyTitleAux : Bool → List Char → List Char
  | _, [] => []
  | prevAlpha, c :: cs =>
    (if c.isAlpha then (if prevAlpha then c.toLower else c.toUpper) else c) ::
      pyTitleAux c.isAlpha cs

def pyTitle (s : String) : String :=
  ⟨pyTitleAux false s.data⟩

/-- Python `key.replace("_", " ")` (single-character pattern). -/
def underscoreToSpace (s : String) : String :=
  ⟨s.data.map (fun c => if c = '_' then ' ' else c)⟩

/-- The column title derived from a configuration key in
`build_crypto_table`: three special cases, otherwise
`key.replace("_", " ").title()`. -/
def colTitle (k : String) : String :=
  if k = "supply_percent" then "Supply %"
  else if k = "volume_change_24h" then "Volume Change(24h)"
  else if k = "volume_24h" then "Volume(24h)"
  else pyTitle (underscoreToSpace k)

/-- A built table: the `crypto_table` dict, insertion-ordered columns of
title and value list. -/
abbrev Table := List (String × List CellVal)

/-- The column-initialisation loop of `build_crypto_table`: a dumped entry
yields a column when its value `!= False` and its key is not `tickers` or
`secret`. -/
def deriveCol (kv : String × PyVal) : Option (String × List CellVal) :=
  if notFalse kv.2 = true ∧ kv.1 ≠ "tickers" ∧ kv.1 ≠ "secret" then
    some (colTitle kv.1, ([] : List CellVal))
  else none

/-- The table after the column-initialisation loop: `Name` and `Symbol`
always, then one empty column per enabled dumped field. -/
def initTable (m : Model) : Table :=
  [("Name", []), ("Symbol", [])] ++ (model_dump m).filterMap deriveCol

/-- `get_amount_abbrv` from `app/utils.py`: the abbreviation logic is
commented out and the value is returned unchanged. -/
def get_amount_abbrv (x : CellVal) : CellVal := x

/-- Round half to even (Python `round` tie behaviour) at the integers. -/
def roundHalfEven (q : ℚ) : ℤ :=
  let n := ⌊q⌋
  let r := q - n
  if r < 1 / 2 then n
  else if 1 / 2 < r then n + 1
  else if n % 2 = 0 then n else n + 1

/-- Python `round(x, 2)` over the exact rationals of the embedding. -/
def pyRound2 (q : ℚ) : ℚ :=
  (roundHalfEven (q * 100) : ℚ) / 100

/-- The `Supply %` cell: `round((circ / total) * 100, 2) if total else
"N/A"` with `circ = crypto.get("circulating_supply", 0)` and
`total = crypto.get("total_supply", 0)`. -/
def supplyPercentCell (c : Crypto) : CellVal :=
  let circ := c.circulating_supply.getD 0
  let total := c.total_supply.getD 0
  if total ≠ 0 then CellVal.num (pyRound2 (circ / total * 100))
  else CellVal.str ("N/A")

/-- The per-entry appends of the row loop of `build_crypto_table`, in
source order: `Name` and `Symbol` unconditionally, then one `(column
title, value)` pair per truthy flag. -/
def rowAppends (m : Model) (c : Crypto) : List (String × CellVal) :=
  [("Name", optCell c.name), ("Symbol", optCell c.symbol)] ++
  (if m.price = some true then [("Price", numCell c.quote.price)] else []) ++
  (if m.token_address = some true then
    [("Token Address", optCell c.token_address)] else []) ++
  (if m.market_cap_abbrv = some true then
    [("Market Cap Abbrv", get_amount_abbrv (numCell c.quote.market_cap))] else []) ++
  (if m.market_cap = some true then
    [("Market Cap", numCell c.quote.market_cap)] else []) ++
  (if m.market_cap_dominance = some true then
    [("Market Cap Dominance", numCell c.quote.market_cap_dominance)] else []) ++
  (if m.volume_24h = some true then
    [("Volume(24h)", numCell c.quote.volume_24h)] else []) ++
  (if m.circulating_supply = some true then
    [("Circulating Supply", numCell c.circulating_supply)] else []) ++
  (if m.total_supply = some true then
    [("Total Supply", numCell c.total_supply)] else []) ++
  (if m.volume_change_24h = some true then
    [("Volume Change(24h)", numCell c.quote.volume_change_24h)] else []) ++
  (if m.supply_percent = some true then
    [("Supply %", supplyPercentCell c)] else [])

/-- `crypto_table[title].append(v)`: appends to the (unique) column with
that title, leaves other columns alone. -/
def appendCol (t : Table) (nm : String) (v : CellVal) : Table :=
  t.map (fun c => if c.1 = nm then (c.1, c.2 ++ [v]) else c)

/-- One iteration of the row loop of `build_crypto_table`. -/
def processEntry (m : Model) (t : Table) (c : Crypto) : Table :=
  (rowAppends m c).foldl (fun t p => appendCol t p.1 p.2) t

/-- `build_crypto_table` from `app/utils.py`: initialise the columns from
the dumped configuration, process every provider entry (the response
mapping `data["data"]`, keyed by symbol in provider order), then raise
`ValueError` when the column lengths disagree (`len(set(lengths)) > 1`)
and otherwise hand the table to `pd.DataFrame`. -/
def build_crypto_table (data : List (String × Crypto)) (m : Model) :
    Except String Table :=
  let t := data.foldl (fun t e => processEntry m t e.2) (initTable m)
  if ((t.map (fun c => c.2.length)).dedup).length > 1 then
    Except.error ("All arrays must be of the same length")
  else Except.ok t

/-- The titles of the enabled optional columns, in the configuration's
field declaration order. -/
def enabledCols (m : Model) : List String :=
  (if m.price = some true then ["Price"] else []) ++
  (if m.token_address = some true then ["Token Address"] else []) ++
  (if m.market_cap_abbrv = some true then ["Market Cap Abbrv"] else []) ++
  (if m.market_cap = some true then ["Market Cap"] else []) ++
  (if m.market_cap_dominance = some true then ["Market Cap Dominance"] else []) ++
  (if m.volume_24h = some true then ["Volume(24h)"] else []) ++
  (if m.circulating_supply = some true then ["Circulating Supply"] else []) ++
  (if m.total_supply = some true then ["Total Supply"] else []) ++
  (if m.volume_change_24h = some true then ["Volume Change(24h)"] else []) ++
  (if m.supply_percent = some true then ["Supply %"] else [])

/-- All column titles of the built table, in order. -/
def colNames (m : Model) : List String :=
  "Name" :: "Symbol" :: enabledCols m

/-- The twelve possible column titles (used to see that the derived titles
never collide). -/
def allColNames : List String :=
  ["Name", "Symbol", "Price", "Token Address", "Market Cap Abbrv",
   "Market Cap", "Market Cap Dominance", "Volume(24h)", "Circulating Supply",
   "Total Supply", "Volume Change(24h)", "Supply %"]

/-- The cell a provider entry contributes to the column with a given
title. -/
def colValue (nm : String) (c : Crypto) : CellVal :=
  if nm = "Name" then optCell c.name
  else if nm = "Symbol" then optCell c.symbol
  else if nm = "Price" then numCell c.quote.price
  else if nm = "Token Address" then optCell c.token_address
  else if nm = "Market Cap Abbrv" then get_amount_abbrv (numCell c.quote.market_cap)
  else if nm = "Market Cap" then numCell c.quote.market_cap
  else if nm = "Market Cap Dominance" then numCell c.quote.market_cap_dominance
  else if nm = "Volume(24h)" then numCell c.quote.volume_24h
  else if nm = "Circulating Supply" then numCell c.circulating_supply
  else if nm = "Total Supply" then numCell c.total_supply
  else if nm = "Volume Change(24h)" then numCell c.quote.volume_change_24h
  else if nm = "Supply %" then supplyPercentCell c
  else CellVal.null

/-! ### app/utils.py — `zip_csv_and_xlsx`

The dataframe handed to the packager is embedded as a header row plus a
list of rows.  pandas `sort_values(by="Name", ascending=False)` is
embedded as a sort of the rows by the `Name` cell, descending, missing
values last (pandas default `na_position="last"`); the exact tie order of
the library sort is not relied upon.  `to_excel` / `to_csv` are external
serialisers, embedded as opaque injective constructors carrying the sorted
frame.  The archive is the list of member paths with their contents plus
the compression method (`zipfile.ZIP_DEFLATED` in the source). -/

structure Frame where
  headers : List String
  rows : List (List CellVal)
deriving DecidableEq, Repr

/-- The sort key of a row: its `Name` cell when that cell is a string,
`none` (sorted last) otherwise. -/
def nameKey (hdrs : List String) (row : List CellVal) : Option String :=
  match row.getD (hdrs.indexOf ("Name")) CellVal.null with
  | CellVal.str s => some s
  | _ => none

/-- Lexicographic comparison of character lists (the order Python uses on
strings, by code point). -/
def charListLe : List Char → List Char → Bool
  | [], _ => true
  | _ :: _, [] => false
  | a :: as, b :: bs => if a = b then charListLe as bs else decide (a < b)

/-- Python string comparison (lexicographic by code point). -/
def strLe (a b : String) : Bool :=
  charListLe a.data b.data

/-- Descending comparison of sort keys, missing keys last: `keyLe a b`
says a row with key `a` may come no later than one with key `b`. -/
def keyLe (a b : Option String) : Bool :=
  match a, b with
  | some x, some y => strLe y x
  | some _, none => true
  | none, some _ => false
  | none, none => true

def rowLe (hdrs : List String) (r1 r2 : List CellVal) : Bool :=
  keyLe (nameKey hdrs r1) (nameKey hdrs r2)

/-- Insert into a sorted list (used to realise the library sort). -/
def insertSorted {α : Type} (le : α → α → Bool) (x : α) : List α → List α
  | [] => [x]
  | y :: ys => if le x y then x :: y :: ys else y :: insertSorted le x ys

/-- Sort realising pandas `sort_values` (any sort agreeing with the
comparison is a faithful model; pandas quicksort is unstable, so tie
order is unspecified anyway). -/
def sortRows {α : Type} (le : α → α → Bool) : List α → List α
  | [] => []
  | x :: xs => insertSorted le x (sortRows le xs)

/-- `dataframe.sort_values(by="Name", ascending=False)`: a new frame with
the rows sorted descending by `Name`; raises `KeyError` when there is no
`Name` column, which the caller checks (see `zip_csv_and_xlsx`). -/
def sort_values_desc (f : Frame) : Frame :=
  ⟨f.headers, sortRows (rowLe f.headers) f.rows⟩

/-- A serialised member of the archive: `to_excel` / `to_csv` output of a
dataframe. -/
inductive FileContent where
  | xlsx (f : Frame)
  | csv (f : Frame)
deriving DecidableEq, Repr

structure Archive where
  method : String
  entries : List (String × FileContent)
deriving DecidableEq, Repr

/-- `datetime.now()` (local process time). -/
structure PyDateTime where
  year : Nat
  month : Nat
  day : Nat
  hour : Nat
  minute : Nat
  second : Nat
deriving DecidableEq, Repr

def digitChar (n : Nat) : Char :=
  Char.ofNat (48 + n % 10)

/-- Two-digit zero-padded decimal (strftime `%m`, `%d`, `%H`, `%M`, `%S`;
the fields of a valid `datetime` are below 100). -/
def pad2 (n : Nat) : String :=
  ⟨[digitChar (n / 10), digitChar n]⟩

/-- Four-digit zero-padded decimal (strftime `%Y`; `datetime` years are at
most 9999). -/
def pad4 (n : Nat) : String :=
  ⟨[digitChar (n / 1000), digitChar (n / 100), digitChar (n / 10), digitChar n]⟩

/-- `now.strftime("%Y-%m-%d_%H-%M-%S")`. -/
def formatTs (dt : PyDateTime) : String :=
  pad4 dt.year ++ "-" ++ pad2 dt.month ++ "-" ++ pad2 dt.day ++ "_" ++
  pad2 dt.hour ++ "-" ++ pad2 dt.minute ++ "-" ++ pad2 dt.second

/-- `zip_csv_and_xlsx` from `app/utils.py`, in state-passing style over the
caller's dataframe: the state returned alongside the result is the
dataframe as the caller sees it after the call (pandas `sort_values` is
invoked without `inplace`, each of the two serialisations sorting a fresh
copy).  `timestamp=None` generates one from `now`.  Sorting a frame
without a `Name` column raises pandas `KeyError`, embedded as the error
case. -/
def zip_csv_and_xlsx (timestamp : Option String) (now : PyDateTime) :
    Frame → Except String Archive × Frame :=
  fun f =>
    let ts := match timestamp with
      | some t => t
      | none => formatTs now
    let folder := "crypto_data_" ++ ts
    if "Name" ∈ f.headers then
      let (sorted1, f1) := (sort_values_desc f, f)
      let (sorted2, f2) := (sort_values_desc f1, f1)
      (Except.ok
        ⟨"ZIP_DEFLATED",
          [(folder ++ "/crypto_data_" ++ ts ++ ".xlsx", FileContent.xlsx sorted1),
           (folder ++ "/crypto_data_" ++ ts ++ ".csv", FileContent.csv sorted2)]⟩,
       f2)
    else (Except.error ("KeyError: Name"), f)

/-! ### Statements of the claims' conclusions -/

/-- Conclusion of claim C2: the resolved list is the spec-worded
accumulation, deduplicated first-occurrence, with the literal fallback on
empty; plus the two concrete resolutions the claim names. -/
def C2Resolution (cp : String) (defaults : List String) (store : Store)
    (secret tickers : Option String) : Prop :=
  (resolveV2 cp defaults store secret tickers).1 =
    (if pydedup (specAccum cp defaults store secret tickers) = []
     then ["BTC", "ETH", "PI"]
     else pydedup (specAccum cp defaults store secret tickers)) ∧
  (resolveV2 cp defaults store none (some ("BTC,ETH,BTC"))).1 = ["BTC", "ETH"] ∧
  (resolveV2 cp defaults store none none).1 = ["BTC", "ETH", "PI"]

/-- Conclusion of claim C3: with a truthy secret and truthy raw tickers,
every parsed ticker is persisted under the secret, and the resolved list
holds every previously persisted ticker and every parsed ticker exactly
once. -/
def C3Persistence (cp : String) (defaults : List String) (store : Store)
    (s raw : String) : Prop :=
  (∀ t ∈ parseTickers raw,
    (s, t) ∈ (resolveV2 cp defaults store (some s) (some raw)).2) ∧
  (∀ t ∈ get_tickers store s,
    ((resolveV2 cp defaults store (some s) (some raw)).1).count t = 1) ∧
  (∀ t ∈ parseTickers raw,
    ((resolveV2 cp defaults store (some s) (some raw)).1).count t = 1)

/-- Conclusion of claim C4: with the distinguished secret, the resolved
list starts with the deduplicated default symbols in configured order,
each default symbol occurs exactly once, supplied tickers are persisted,
and the store gains only pairs coming from the supplied tickers (never the
default symbols themselves). -/
def C4DefaultSecret (cp : String) (defaults : List String) (store : Store)
    (tickers : Option String) : Prop :=
  (∃ rest, (resolveV2 cp defaults store (some cp) tickers).1 =
    pydedup (get_token_symbols defaults) ++ rest) ∧
  (∀ t ∈ get_token_symbols defaults,
    ((resolveV2 cp defaults store (some cp) tickers).1).count t = 1) ∧
  (truthy tickers = true →
    ∀ t ∈ parseTickers (tickers.getD ""),
      (cp, t) ∈ (resolveV2 cp defaults store (some cp) tickers).2) ∧
  (∀ p ∈ (resolveV2 cp defaults store (some cp) tickers).2,
    p ∈ store ∨ (p.1 = cp ∧ p.2 ∈ parseTickers (tickers.getD "")))

/-- Conclusion of claim C9: `add_ticker` is idempotent, and on a store
respecting the primary key (no duplicate rows) writes keep it so and
`get_tickers` never returns a ticker twice. -/
def C9Conclusion (st : Store) (s t secret : String) : Prop :=
  add_ticker (add_ticker st s t) s t = add_ticker st s t ∧
  (get_tickers st secret).Nodup ∧
  (add_ticker st s t).Nodup

/-- Conclusion of claim C7: when enabled, the built table holds a
`Supply %` column whose cell for each entry is
`round(circulating_supply / total_supply * 100, 2)` when `total_supply`
is nonzero and the literal string `N/A` when it is zero or absent; plus
the claim's two concrete evaluations. -/
def C7SupplyPercent (data : List (String × Crypto)) (t : Table) : Prop :=
  ("Supply %", data.map (fun e =>
    if e.2.total_supply.getD 0 ≠ 0
    then CellVal.num
      (pyRound2 (e.2.circulating_supply.getD 0 / e.2.total_supply.getD 0 * 100))
    else CellVal.str ("N/A"))) ∈ t ∧
  supplyPercentCell
    ⟨none, none, none, some 50, some 100, ⟨none, none, none, none, none⟩⟩ =
      CellVal.num 50 ∧
  supplyPercentCell
    ⟨none, none, none, some 50, some 0, ⟨none, none, none, none, none⟩⟩ =
      CellVal.str ("N/A")

/-- Conclusion of claim C8: the packager returns an archive compressed
with the fixed method holding exactly the two serialisations of the
`Name`-descending sort of the dataset, both inside one timestamp-named
folder; the sorted rows are a permutation of the dataset's rows ordered
descending by name; and a generated timestamp has the
`YYYY-MM-DD_HH-MM-SS` shape. -/
def C8Concl (f : Frame) (timestamp : Option String) (now : PyDateTime) : Prop :=
  (zip_csv_and_xlsx timestamp now f).1 =
    Except.ok
      ⟨"ZIP_DEFLATED",
        [("crypto_data_" ++ timestamp.getD (formatTs now) ++ "/crypto_data_" ++
            timestamp.getD (formatTs now) ++ ".xlsx",
          FileContent.xlsx (sort_values_desc f)),
         ("crypto_data_" ++ timestamp.getD (formatTs now) ++ "/crypto_data_" ++
            timestamp.getD (formatTs now) ++ ".csv",
          FileContent.csv (sort_values_desc f))]⟩ ∧
  (sort_values_desc f).rows.Perm f.rows ∧
  (sort_values_desc f).rows.Pairwise (fun a b => rowLe f.headers a b = true) ∧
  (formatTs now).length = 19 ∧
  (formatTs now).data.getD 4 ' ' = '-' ∧
  (formatTs now).data.getD 7 ' ' = '-' ∧
  (formatTs now).data.getD 10 ' ' = '_' ∧
  (formatTs now).data.getD 13 ' ' = '-' ∧
  (formatTs now).data.getD 16 ' ' = '-'

/-! ### Lemmas about deduplication -/

theorem mem_pydedupAux (a : String) (l : List String) :
    ∀ seen, a ∈ pydedupAux l seen ↔ a ∈ l ∧ a ∉ seen := by
  induction l with
  | nil => intro seen; simp [pydedupAux]
  | cons x xs ih =>
    intro seen
    by_cases hx : x ∈ seen
    · rw [show pydedupAux (x :: xs) seen = pydedupAux xs seen by
        simp [pydedupAux, hx], ih]
      constructor
      · rintro ⟨h1, h2⟩
        exact ⟨List.mem_cons_of_mem _ h1, h2⟩
      · rintro ⟨h1, h2⟩
        rcases List.mem_cons.mp h1 with rfl | h1
        · exact absurd hx h2
        · exact ⟨h1, h2⟩
    · rw [show pydedupAux (x :: xs) seen = x :: pydedupAux xs (x :: seen) by
        simp [pydedupAux, hx]]
      constructor
      · intro h
        rcases List.mem_cons.mp h with rfl | h
        · exact ⟨List.mem_cons_self _ _, hx⟩
        · rcases (ih _).mp h with ⟨h1, h2⟩
          simp only [List.mem_cons, not_or] at h2
          exact ⟨List.mem_cons_of_mem _ h1, h2.2⟩
      · rintro ⟨h1, h2⟩
        by_cases hax : a = x
        · subst hax; exact List.mem_cons_self _ _
        · rcases List.mem_cons.mp h1 with rfl | h1
          · exact absurd rfl hax
          · refine List.mem_cons_of_mem _ ((ih _).mpr ⟨h1, ?_⟩)
            simp only [List.mem_cons, not_or]
            exact ⟨hax, h2⟩

theorem nodup_pydedupAux (l : List String) :
    ∀ seen, (pydedupAux l seen).Nodup := by
  induction l with
  | nil => intro seen; simp [pydedupAux]
  | cons x xs ih =>
    intro seen
    by_cases hx : x ∈ seen
    · simpa [pydedupAux, hx] using ih seen
    · rw [show pydedupAux (x :: xs) seen = x :: pydedupAux xs (x :: seen) by
        simp [pydedupAux, hx]]
      refine List.nodup_cons.mpr ⟨?_, ih _⟩
      intro hmem
      exact ((mem_pydedupAux x xs _).mp hmem).2 (List.mem_cons_self _ _)

theorem pydedupAux_append (a b : List String) :
    ∀ seen, ∃ r, pydedupAux (a ++ b) seen = pydedupAux a seen ++ r := by
  induction a with
  | nil => intro seen; exact ⟨pydedupAux b seen, by simp [pydedupAux]⟩
  | cons x xs ih =>
    intro seen
    by_cases hx : x ∈ seen
    · simpa [pydedupAux, hx] using ih seen
    · obtain ⟨r, hr⟩ := ih (x :: seen)
      exact ⟨r, by simp [pydedupAux, hx, hr]⟩

theorem mem_pydedup {a : String} {l : List String} :
    a ∈ pydedup l ↔ a ∈ l := by
  rw [pydedup, mem_pydedupAux]
  simp

theorem nodup_pydedup (l : List String) : (pydedup l).Nodup :=
  nodup_pydedupAux l []

theorem count_pydedup_of_mem {a : String} {l : List String} (h : a ∈ l) :
    (pydedup l).count a = 1 := by
  have hmem : a ∈ pydedup l := mem_pydedup.mpr h
  have h1 := List.nodup_iff_count_le_one.mp (nodup_pydedup l) a
  have h2 : 0 < (pydedup l).count a := List.count_pos_iff.mpr hmem
  omega

theorem pydedup_append (a b : List String) :
    ∃ r, pydedup (a ++ b) = pydedup a ++ r :=
  pydedupAux_append a b []

/-! ### Lemmas about the ticker store -/

theorem mem_add_ticker_self (st : Store) (s t : String) :
    (s, t) ∈ add_ticker st s t := by
  unfold add_ticker
  split
  · assumption
  · exact List.mem_append_right _ (by simp)

theorem mem_add_ticker_of_mem {p : String × String} {st : Store}
    (s t : String) (h : p ∈ st) : p ∈ add_ticker st s t := by
  unfold add_ticker
  split
  · exact h
  · exact List.mem_append_left _ h

theorem mem_addAll_of_mem {p : String × String} {st : Store} (s : String)
    (ts : List String) (h : p ∈ st) : p ∈ addAll st s ts := by
  induction ts generalizing st with
  | nil => exact h
  | cons u us ih => exact ih (mem_add_ticker_of_mem s u h)

theorem mem_addAll_self {st : Store} {s : String} {ts : List String}
    {t : String} (h : t ∈ ts) : (s, t) ∈ addAll st s ts := by
  induction ts generalizing st with
  | nil => cases h
  | cons u us ih =>
    rcases List.mem_cons.mp h with rfl | h
    · exact mem_addAll_of_mem s us (mem_add_ticker_self st s t)
    · exact ih h

theorem mem_addAll {p : String × String} {st : Store} {s : String}
    {ts : List String} (h : p ∈ addAll st s ts) :
    p ∈ st ∨ (p.1 = s ∧ p.2 ∈ ts) := by
  induction ts generalizing st with
  | nil => exact Or.inl h
  | cons u us ih =>
    rcases ih h with h1 | h1
    · have h2 : p ∈ add_ticker st s u := h1
      by_cases hm : (s, u) ∈ st
      · rw [add_ticker, if_pos hm] at h2
        exact Or.inl h2
      · rw [add_ticker, if_neg hm] at h2
        rcases List.mem_append.mp h2 with h3 | h3
        · exact Or.inl h3
        · simp only [List.mem_singleton] at h3
          subst h3
          exact Or.inr ⟨rfl, List.mem_cons_self _ _⟩
    · exact Or.inr ⟨h1.1, List.mem_cons_of_mem _ h1.2⟩

theorem mem_get_tickers {st : Store} {s t : String} :
    t ∈ get_tickers st s ↔ (s, t) ∈ st := by
  constructor
  · intro h
    simp only [get_tickers, List.mem_map, List.mem_filter,
      decide_eq_true_eq] at h
    obtain ⟨p, ⟨hm, h1⟩, h2⟩ := h
    have hp : p = (s, t) := Prod.ext h1 h2
    rwa [hp] at hm
  · intro h
    simp only [get_tickers, List.mem_map, List.mem_filter, decide_eq_true_eq]
    exact ⟨(s, t), ⟨h, rfl⟩, rfl⟩

theorem nodup_get_tickers {st : Store} (h : st.Nodup) (s : String) :
    (get_tickers st s).Nodup := by
  refine List.Nodup.map_on ?_ (h.filter _)
  intro p hp q hq hpq
  have hp1 : p.1 = s := by
    have := (List.mem_filter.mp hp).2
    simpa using this
  have hq1 : q.1 = s := by
    have := (List.mem_filter.mp hq).2
    simpa using this
  exact Prod.ext (hp1.trans hq1.symm) hpq

theorem nodup_add_ticker {st : Store} (h : st.Nodup) (s t : String) :
    (add_ticker st s t).Nodup := by
  by_cases hmem : (s, t) ∈ st
  · simpa [add_ticker, hmem] using h
  · rw [add_ticker, if_neg hmem]
    simp [List.nodup_append, h, hmem]

/-! ### Facts about Python truthiness used below -/

theorem truthy_some {s : String} (h : s ≠ "") : truthy (some s) = true := by
  simpa [truthy] using h

theorem truthy_of_ne {o : Option String} (h : truthy o = false) :
    o = none ∨ o = some "" := by
  cases o with
  | none => exact Or.inl rfl
  | some s =>
    right
    by_cases hs : s = ""
    · rw [hs]
    · rw [truthy_some hs] at h
      cases h

/-! ### Claim C2 -/

/-- C2: for every secret and raw ticker input, the final v2 ticker list is
the accumulated sequence (default symbols, then persisted tickers, then
directly supplied tickers, per branch) deduplicated preserving first
occurrence, with the literal fallback `["BTC","ETH","PI"]` when that
deduplication is empty; concretely, no secret with `"BTC,ETH,BTC"`
resolves to `["BTC","ETH"]` and no secret with no tickers resolves to
`["BTC","ETH","PI"]`.  The deployed distinguished secret is assumed
non-empty (an empty one would be falsy in Python and disable the
persistence branch). -/
theorem c2_resolution_dedup_fallback (cp : String) (defaults : List String)
    (store : Store) (secret tickers : Option String) (hcp : cp ≠ "") :
    C2Resolution cp defaults store secret tickers := by
  refine ⟨?_, rfl, rfl⟩
  cases ht : truthy secret with
  | true =>
    simp only [resolveV2, specAccum, ht, if_true, List.append_nil,
      fallbackTickers]
  | false =>
    have hne : secret ≠ some cp := by
      intro h
      rw [h, truthy_some hcp] at ht
      cases ht
    cases htk : truthy tickers with
    | true =>
      simp only [resolveV2, specAccum, ht, htk, if_neg hne, if_true,
        Bool.false_eq_true, if_false, List.nil_append, fallbackTickers]
    | false =>
      simp only [resolveV2, specAccum, ht, htk, if_neg hne,
        Bool.false_eq_true, if_false, List.nil_append, fallbackTickers]

theorem c2_witness :
    ("k" : String) ≠ "" ∧ C2Resolution ("k") [] [] none none :=
  ⟨by decide, c2_resolution_dedup_fallback ("k") [] [] none none (by decide)⟩

/-! ### Claim C3 -/

/-- C3: with a non-empty secret and non-empty raw ticker string, v2
resolution persists every parsed ticker under the secret, reads the
persisted set back, and the resolved list contains every previously
persisted ticker and every newly supplied ticker exactly once. -/
theorem c3_persist_then_merge (cp : String) (defaults : List String)
    (store : Store) (s raw : String) (hs : s ≠ "") (hr : raw ≠ "") :
    C3Persistence cp defaults store s raw := by
  have hts : truthy (some s) = true := truthy_some hs
  have htr : truthy (some raw) = true := truthy_some hr
  have hpair : resolveV2 cp defaults store (some s) (some raw) =
      ((if pydedup ((if (some s : Option String) = some cp
            then get_token_symbols defaults else []) ++
          get_tickers (addAll store s (parseTickers raw)) s) = []
        then fallbackTickers
        else pydedup ((if (some s : Option String) = some cp
            then get_token_symbols defaults else []) ++
          get_tickers (addAll store s (parseTickers raw)) s)),
       addAll store s (parseTickers raw)) := by
    simp only [resolveV2, hts, htr, if_true, Option.getD_some]
  refine ⟨?_, ?_, ?_⟩
  · intro t ht
    rw [hpair]
    exact mem_addAll_self ht
  · intro t ht
    have h2 : (s, t) ∈ store := mem_get_tickers.mp ht
    have h3 : (s, t) ∈ addAll store s (parseTickers raw) :=
      mem_addAll_of_mem _ _ h2
    have h5 : t ∈ (if (some s : Option String) = some cp
          then get_token_symbols defaults else []) ++
        get_tickers (addAll store s (parseTickers raw)) s :=
      List.mem_append_right _ (mem_get_tickers.mpr h3)
    have h6 : pydedup ((if (some s : Option String) = some cp
          then get_token_symbols defaults else []) ++
        get_tickers (addAll store s (parseTickers raw)) s) ≠ [] :=
      List.ne_nil_of_mem (mem_pydedup.mpr h5)
    rw [hpair]
    simp only [if_neg h6]
    exact count_pydedup_of_mem h5
  · intro t ht
    have h3 : (s, t) ∈ addAll store s (parseTickers raw) := mem_addAll_self ht
    have h5 : t ∈ (if (some s : Option String) = some cp
          then get_token_symbols defaults else []) ++
        get_tickers (addAll store s (parseTickers raw)) s :=
      List.mem_append_right _ (mem_get_tickers.mpr h3)
    have h6 : pydedup ((if (some s : Option String) = some cp
          then get_token_symbols defaults else []) ++
        get_tickers (addAll store s (parseTickers raw)) s) ≠ [] :=
      List.ne_nil_of_mem (mem_pydedup.mpr h5)
    rw [hpair]
    simp only [if_neg h6]
    exact count_pydedup_of_mem h5

theorem c3_witness :
    ("k" : String) ≠ "" ∧ ("ADA" : String) ≠ "" ∧
      C3Persistence ("x") [] [("k", "SOL")] ("k") ("ADA") :=
  ⟨by decide, by decide,
    c3_persist_then_merge ("x") [] [("k", "SOL")] ("k") ("ADA")
      (by decide) (by decide)⟩

/-! ### Claim C4 -/

/-- C4: with the distinguished default-token secret, resolution puts the
deduplicated default symbols first in configured order, each exactly once;
supplied request tickers are persisted as well, and the store never gains
a pair that is not a supplied request ticker (in particular the default
symbols themselves are never written). -/
theorem c4_default_secret_expansion (cp : String) (defaults : List String)
    (store : Store) (tickers : Option String) (hcp : cp ≠ "") :
    C4DefaultSecret cp defaults store tickers := by
  have hts : truthy (some cp) = true := truthy_some hcp
  have hpair : resolveV2 cp defaults store (some cp) tickers =
      ((if pydedup (get_token_symbols defaults ++
          get_tickers (if truthy tickers = true
            then addAll store cp (parseTickers (tickers.getD "")) else store)
            cp) = []
        then fallbackTickers
        else pydedup (get_token_symbols defaults ++
          get_tickers (if truthy tickers = true
            then addAll store cp (parseTickers (tickers.getD "")) else store)
            cp)),
       (if truthy tickers = true
        then addAll store cp (parseTickers (tickers.getD "")) else store)) := by
    simp only [resolveV2, hts, if_true, Option.getD_some]
  refine ⟨?_, ?_, ?_, ?_⟩
  · obtain ⟨r, hr⟩ := pydedup_append (get_token_symbols defaults)
      (get_tickers (if truthy tickers = true
        then addAll store cp (parseTickers (tickers.getD "")) else store) cp)
    by_cases hnil : pydedup (get_token_symbols defaults ++
        get_tickers (if truthy tickers = true
          then addAll store cp (parseTickers (tickers.getD "")) else store)
          cp) = []
    · have hsyms : pydedup (get_token_symbols defaults) = [] := by
        rw [hnil] at hr
        exact (List.append_eq_nil.mp hr.symm).1
      refine ⟨fallbackTickers, ?_⟩
      rw [hpair]
      simp only [if_pos hnil, hsyms, List.nil_append]
    · refine ⟨r, ?_⟩
      rw [hpair]
      simp only [if_neg hnil]
      exact hr
  · intro t ht
    have h5 : t ∈ get_token_symbols defaults ++
        get_tickers (if truthy tickers = true
          then addAll store cp (parseTickers (tickers.getD "")) else store)
          cp :=
      List.mem_append_left _ ht
    have h6 : pydedup (get_token_symbols defaults ++
        get_tickers (if truthy tickers = true
          then addAll store cp (parseTickers (tickers.getD "")) else store)
          cp) ≠ [] :=
      List.ne_nil_of_mem (mem_pydedup.mpr h5)
    rw [hpair]
    simp only [if_neg h6]
    exact count_pydedup_of_mem h5
  · intro htk t ht
    rw [hpair]
    simp only [if_pos htk]
    exact mem_addAll_self ht
  · intro p hp
    rw [hpair] at hp
    by_cases htk : truthy tickers = true
    · rw [if_pos htk] at hp
      exact mem_addAll hp
    · rw [if_neg htk] at hp
      exact Or.inl hp

theorem c4_witness :
    ("k" : String) ≠ "" ∧ C4DefaultSecret ("k") [] [] none :=
  ⟨by decide, c4_default_secret_expansion ("k") [] [] none (by decide)⟩

/-! ### Claim C5 -/

/-- C5: evidence that the claim fails on the code as written.  When the
persistence write raises (here: a backend whose insert fails), the
exception propagates out of the resolution logic of `get_data_v2` — the
surrounding `try` block only starts after resolution — so the request is
aborted instead of being served from the in-request ticker data, contrary
to the spec's "logged and treated as non-fatal; resolution continues". -/
theorem c5_write_failure_aborts :
    resolveV2E ("cp") [] add_ticker_failing [] (some ("s")) (some ("ADA")) =
      Except.error ("database write failure") := by
  rfl

/-! ### Claim C9 -/

/-- C9: `add_ticker` twice equals `add_ticker` once (insert-or-ignore on
the primary key is idempotent and never an error), and on a store with no
duplicate rows (the primary-key invariant) `get_tickers` never returns a
ticker twice and writes preserve the invariant. -/
theorem c9_store_idempotent (st : Store) (s t secret : String)
    (hnd : st.Nodup) : C9Conclusion st s t secret := by
  refine ⟨?_, nodup_get_tickers hnd secret, nodup_add_ticker hnd s t⟩
  by_cases hmem : (s, t) ∈ st
  · simp [add_ticker, hmem]
  · have h1 : add_ticker st s t = st ++ [(s, t)] := by
      rw [add_ticker, if_neg hmem]
    have h2 : (s, t) ∈ add_ticker st s t := mem_add_ticker_self st s t
    rw [add_ticker, if_pos h2]

theorem c9_witness :
    ([("a", "x")] : Store).Nodup ∧ C9Conclusion [("a", "x")] ("a") ("x") ("a") :=
  ⟨by decide, c9_store_idempotent [("a", "x")] ("a") ("x") ("a") (by decide)⟩

/-! ### Lemmas about the table builder -/

theorem mem_ite_nil {α : Type} {c : Prop} [Decidable c] {x p : α} :
    (p ∈ (if c then [x] else [])) ↔ c ∧ p = x := by
  split
  · simp_all
  · simp_all

theorem rowAppends_names (m : Model) (c : Crypto) :
    (rowAppends m c).map Prod.fst = colNames m := by
  simp [rowAppends, colNames, enabledCols,
    apply_ite (List.map (Prod.fst : String × CellVal → String))]

theorem rowAppends_vals (m : Model) (c : Crypto) :
    ∀ p ∈ rowAppends m c, p.2 = colValue p.1 c := by
  intro p hp
  simp only [rowAppends, List.mem_append, mem_ite_nil, List.mem_cons,
    List.not_mem_nil, or_false, or_assoc] at hp
  rcases hp with rfl | rfl | ⟨_, rfl⟩ | ⟨_, rfl⟩ | ⟨_, rfl⟩ | ⟨_, rfl⟩ |
    ⟨_, rfl⟩ | ⟨_, rfl⟩ | ⟨_, rfl⟩ | ⟨_, rfl⟩ | ⟨_, rfl⟩ | ⟨_, rfl⟩ <;> rfl

theorem filterMap_deriveCol_boolEntry (k : String) (v : Option Bool)
    (h1 : k ≠ "tickers") (h2 : k ≠ "secret") :
    (boolEntry k v).filterMap deriveCol =
      if v = some true then [(colTitle k, ([] : List CellVal))] else [] := by
  cases v with
  | none => simp [boolEntry]
  | some b => cases b <;> simp [boolEntry, deriveCol, notFalse, h1, h2]

theorem filterMap_deriveCol_tickers (v : Option String) :
    (strEntry ("tickers") v).filterMap deriveCol = [] := by
  cases v <;> simp [strEntry, deriveCol, notFalse]

theorem filterMap_deriveCol_secret (v : Option String) :
    (strEntry ("secret") v).filterMap deriveCol = [] := by
  cases v <;> simp [strEntry, deriveCol, notFalse]

theorem initTable_names (m : Model) :
    (initTable m).map Prod.fst = colNames m := by
  have hb := filterMap_deriveCol_boolEntry
  rw [initTable, model_dump]
  simp only [List.filterMap_append,
    hb ("price") m.price (by decide) (by decide),
    hb ("token_address") m.token_address (by decide) (by decide),
    hb ("market_cap_abbrv") m.market_cap_abbrv (by decide) (by decide),
    hb ("market_cap") m.market_cap (by decide) (by decide),
    hb ("market_cap_dominance") m.market_cap_dominance (by decide) (by decide),
    hb ("volume_24h") m.volume_24h (by decide) (by decide),
    hb ("circulating_supply") m.circulating_supply (by decide) (by decide),
    hb ("total_supply") m.total_supply (by decide) (by decide),
    hb ("volume_change_24h") m.volume_change_24h (by decide) (by decide),
    hb ("supply_percent") m.supply_percent (by decide) (by decide),
    filterMap_deriveCol_tickers, filterMap_deriveCol_secret]
  have t1 : colTitle ("price") = "Price" := by decide
  have t2 : colTitle ("token_address") = "Token Address" := by decide
  have t3 : colTitle ("market_cap_abbrv") = "Market Cap Abbrv" := by decide
  have t4 : colTitle ("market_cap") = "Market Cap" := by decide
  have t5 : colTitle ("market_cap_dominance") = "Market Cap Dominance" := by
    decide
  have t6 : colTitle ("volume_24h") = "Volume(24h)" := by decide
  have t7 : colTitle ("circulating_supply") = "Circulating Supply" := by decide
  have t8 : colTitle ("total_supply") = "Total Supply" := by decide
  have t9 : colTitle ("volume_change_24h") = "Volume Change(24h)" := by decide
  have t10 : colTitle ("supply_percent") = "Supply %" := by decide
  simp [colNames, enabledCols, t1, t2, t3, t4, t5, t6, t7, t8, t9, t10,
    apply_ite (List.map (Prod.fst : String × List CellVal → String))]

theorem optSingle_sublist {c : Prop} [Decidable c] (a : String) :
    List.Sublist (if c then [a] else []) [a] := by
  split
  · exact List.Sublist.refl _
  · exact List.nil_sublist _

theorem optCons_sublist {c : Prop} [Decidable c] (a : String)
    {l L : List String} (h : List.Sublist l L) :
    List.Sublist ((if c then [a] else []) ++ l) (a :: L) := by
  split
  · simpa using List.Sublist.cons₂ a h
  · simpa using List.Sublist.cons a h

theorem colNames_sublist (m : Model) :
    List.Sublist (colNames m) allColNames := by
  rw [colNames, allColNames]
  refine List.Sublist.cons₂ _ (List.Sublist.cons₂ _ ?_)
  rw [enabledCols]
  simp only [List.append_assoc]
  refine optCons_sublist _ (optCons_sublist _ (optCons_sublist _
    (optCons_sublist _ (optCons_sublist _ (optCons_sublist _
    (optCons_sublist _ (optCons_sublist _ (optCons_sublist _ ?_))))))))
  exact optSingle_sublist _

theorem colNames_nodup (m : Model) : (colNames m).Nodup := by
  have hall : allColNames.Nodup := by decide
  exact List.Nodup.sublist (colNames_sublist m) hall

theorem appendCol_cons (c : String × List CellVal) (t : Table) (nm : String)
    (v : CellVal) :
    appendCol (c :: t) nm v =
      (if c.1 = nm then (c.1, c.2 ++ [v]) else c) :: appendCol t nm v := rfl

theorem appendCol_absent {t : Table} {nm : String}
    (h : nm ∉ t.map Prod.fst) (v : CellVal) : appendCol t nm v = t := by
  induction t with
  | nil => rfl
  | cons c t ih =>
    simp only [List.map_cons, List.mem_cons, not_or] at h
    rw [appendCol_cons, if_neg (fun hc => h.1 hc.symm), ih h.2]

theorem foldl_appendCol_skip {nm : String} {vs : List CellVal} {t : Table}
    {ps : List (String × CellVal)} (h : ∀ p ∈ ps, p.1 ≠ nm) :
    ps.foldl (fun t p => appendCol t p.1 p.2) ((nm, vs) :: t) =
      (nm, vs) :: ps.foldl (fun t p => appendCol t p.1 p.2) t := by
  induction ps generalizing t with
  | nil => rfl
  | cons p ps ih =>
    have h1 : p.1 ≠ nm := h p (List.mem_cons_self _ _)
    rw [List.foldl_cons, List.foldl_cons]
    have hstep : appendCol ((nm, vs) :: t) p.1 p.2 =
        (nm, vs) :: appendCol t p.1 p.2 := by
      rw [appendCol_cons, if_neg (fun hx => h1 hx.symm)]
    rw [hstep, ih (fun q hq => h q (List.mem_cons_of_mem _ hq))]

theorem appendRow {t : Table} {ps : List (String × CellVal)}
    (hnames : ps.map Prod.fst = t.map Prod.fst)
    (hnd : (t.map Prod.fst).Nodup) :
    ps.foldl (fun t p => appendCol t p.1 p.2) t =
      List.zipWith (fun c p => (c.1, c.2 ++ [p.2])) t ps := by
  induction t generalizing ps with
  | nil =>
    cases ps with
    | nil => rfl
    | cons p ps => simp at hnames
  | cons c t ih =>
    cases ps with
    | nil => simp at hnames
    | cons p ps =>
      simp only [List.map_cons, List.cons.injEq] at hnames
      obtain ⟨hp1, hrest⟩ := hnames
      simp only [List.map_cons, List.nodup_cons] at hnd
      rw [List.foldl_cons]
      have hstep : appendCol (c :: t) p.1 p.2 =
          (c.1, c.2 ++ [p.2]) :: t := by
        rw [appendCol_cons, if_pos hp1.symm, appendCol_absent (hp1 ▸ hnd.1) p.2]
      rw [hstep]
      have hskip : ∀ q ∈ ps, q.1 ≠ c.1 := by
        intro q hq hqc
        exact hnd.1 (hrest ▸ hqc ▸ List.mem_map_of_mem Prod.fst hq)
      rw [foldl_appendCol_skip hskip, ih hrest hnd.2, List.zipWith_cons_cons]

theorem zipWith_eq_map {t : Table} {ps : List (String × CellVal)}
    (f : String → CellVal) (hnames : ps.map Prod.fst = t.map Prod.fst)
    (hvals : ∀ p ∈ ps, p.2 = f p.1) :
    List.zipWith (fun c p => (c.1, c.2 ++ [p.2])) t ps =
      t.map (fun c => (c.1, c.2 ++ [f c.1])) := by
  induction t generalizing ps with
  | nil => cases ps <;> rfl
  | cons c t ih =>
    cases ps with
    | nil => simp at hnames
    | cons p ps =>
      simp only [List.map_cons, List.cons.injEq] at hnames
      obtain ⟨hp1, hrest⟩ := hnames
      rw [List.zipWith_cons_cons, List.map_cons,
        hvals p (List.mem_cons_self _ _), hp1,
        ih hrest (fun q hq => hvals q (List.mem_cons_of_mem _ hq))]

theorem processEntry_eq {m : Model} {t : Table} (c : Crypto)
    (hnames : t.map Prod.fst = colNames m) :
    processEntry m t c =
      t.map (fun col => (col.1, col.2 ++ [colValue col.1 c])) := by
  rw [processEntry,
    appendRow ((rowAppends_names m c).trans hnames.symm)
      (hnames ▸ colNames_nodup m),
    zipWith_eq_map (fun nm => colValue nm c)
      ((rowAppends_names m c).trans hnames.symm) (rowAppends_vals m c)]

theorem foldl_processEntry {m : Model} {t : Table}
    (data : List (String × Crypto)) (hnames : t.map Prod.fst = colNames m) :
    data.foldl (fun t e => processEntry m t e.2) t =
      t.map (fun col => (col.1, col.2 ++
        data.map (fun e => colValue col.1 e.2))) := by
  induction data generalizing t with
  | nil => simp
  | cons e data ih =>
    rw [List.foldl_cons, processEntry_eq e.2 hnames]
    have hnames2 : (t.map (fun col =>
        (col.1, col.2 ++ [colValue col.1 e.2]))).map Prod.fst =
        colNames m := by
      rw [List.map_map]
      exact hnames
    rw [ih hnames2, List.map_map]
    refine List.map_congr_left (fun col _ => ?_)
    simp [List.append_assoc]

theorem initTable_vals {m : Model} {col : String × List CellVal}
    (h : col ∈ initTable m) : col.2 = [] := by
  rcases List.mem_append.mp h with h | h
  · rcases List.mem_cons.mp h with rfl | h
    · rfl
    · rcases List.mem_cons.mp h with rfl | h
      · rfl
      · cases h
  · obtain ⟨kv, _, hd⟩ := List.mem_filterMap.mp h
    rw [deriveCol] at hd
    split at hd
    · cases hd
      rfl
    · cases hd

theorem length_le_one_of_nodup_const {l : List ℕ} {a : ℕ}
    (hnd : l.Nodup) (h : ∀ x ∈ l, x = a) : l.length ≤ 1 := by
  match l with
  | [] => simp
  | [x] => simp
  | x :: y :: rest =>
    exfalso
    have hx := h x (by simp)
    have hy := h y (by simp)
    rw [List.nodup_cons] at hnd
    exact hnd.1 (by rw [hx.trans hy.symm]; exact List.mem_cons_self y rest)

/-- Full characterisation of `build_crypto_table`: it always succeeds and
each column of the result carries one value per provider entry. -/
theorem build_crypto_table_eq (data : List (String × Crypto)) (m : Model) :
    build_crypto_table data m =
      Except.ok ((initTable m).map (fun col =>
        (col.1, data.map (fun e => colValue col.1 e.2)))) := by
  have hfold := foldl_processEntry data (initTable_names m)
  have hfold2 : data.foldl (fun t e => processEntry m t e.2) (initTable m) =
      (initTable m).map (fun col =>
        (col.1, data.map (fun e => colValue col.1 e.2))) := by
    rw [hfold]
    exact List.map_congr_left (fun col hcol => by
      rw [initTable_vals hcol, List.nil_append])
  rw [build_crypto_table, hfold2]
  have hconst : ∀ x ∈ ((initTable m).map (fun col =>
      (col.1, data.map (fun e => colValue col.1 e.2)))).map
        (fun c => c.2.length), x = data.length := by
    intro x hx
    obtain ⟨c, hc, rfl⟩ := List.mem_map.mp hx
    obtain ⟨c0, _, rfl⟩ := List.mem_map.mp hc
    simp
  have hle := length_le_one_of_nodup_const (List.nodup_dedup _)
    (fun x hx => hconst x (List.mem_dedup.mp hx))
  rw [if_neg (by omega)]

/-! ### Claim C1 -/

/-- C1: for every provider response mapping and every configuration,
`build_crypto_table` succeeds with every column (including `Name` and
`Symbol`) of length equal to the number of provider entries — the
column-length-mismatch `ValueError` branch is unreachable. -/
theorem c1_table_lengths_total (data : List (String × Crypto)) (m : Model) :
    ∃ t, build_crypto_table data m = Except.ok t ∧
      ∀ col ∈ t, col.2.length = data.length := by
  refine ⟨_, build_crypto_table_eq data m, ?_⟩
  intro col hcol
  obtain ⟨c0, _, rfl⟩ := List.mem_map.mp hcol
  simp

/-! ### Claim C6 -/

/-- C6: the derived column list always starts with `Name` and `Symbol`;
each truthy field contributes exactly one column with the listed special
titles or the underscore-to-space title-cased name, in the configuration's
declaration order; `tickers` and `secret` (on which the right-hand side
does not depend) never produce a column. -/
theorem c6_column_titles (data : List (String × Crypto)) (m : Model) :
    ∃ t, build_crypto_table data m = Except.ok t ∧
      t.map Prod.fst = "Name" :: "Symbol" :: enabledCols m := by
  refine ⟨_, build_crypto_table_eq data m, ?_⟩
  rw [List.map_map]
  exact initTable_names m

/-! ### Claim C7 -/

/-- C7: when `supply_percent` is enabled, the built table's `Supply %`
column computes `round(circulating_supply / total_supply * 100, 2)` for
nonzero `total_supply` and the literal `N/A` otherwise; concretely 50 of
100 gives 50.0 and a zero total gives `N/A`. -/
theorem c7_supply_percent (data : List (String × Crypto)) (m : Model)
    (t : Table) (hsp : m.supply_percent = some true)
    (hok : build_crypto_table data m = Except.ok t) :
    C7SupplyPercent data t := by
  have heq := (build_crypto_table_eq data m).symm.trans hok
  have ht : t = (initTable m).map (fun col =>
      (col.1, data.map (fun e => colValue col.1 e.2))) :=
    (Except.ok.inj heq).symm
  refine ⟨?_, ?_, by decide⟩
  · have hcol : ("Supply %", ([] : List CellVal)) ∈ initTable m := by
      rw [initTable]
      refine List.mem_append_right _ (List.mem_filterMap.mpr
        ⟨("supply_percent", PyVal.pybool true), ?_, rfl⟩)
      simp [model_dump, hsp, boolEntry, strEntry]
    rw [ht]
    refine List.mem_map.mpr ⟨("Supply %", []), hcol, ?_⟩
    rw [show (fun e : String × Crypto => colValue ("Supply %") e.2) =
      (fun e : String × Crypto =>
        if e.2.total_supply.getD 0 ≠ 0
        then CellVal.num (pyRound2
          (e.2.circulating_supply.getD 0 / e.2.total_supply.getD 0 * 100))
        else CellVal.str ("N/A")) from funext (fun e => rfl)]
  · have h : ((50 : ℚ)) / 100 * 100 = 50 := by norm_num
    have h2 : ((50 : ℚ) * 100) = 5000 := by norm_num
    simp only [supplyPercentCell, pyRound2, roundHalfEven, Option.getD, h, h2]
    norm_num

theorem c7_witness :
    (⟨none, none, none, none, none, none, none, none, none, some true,
        none, none⟩ : Model).supply_percent = some true ∧
    build_crypto_table
      [("X", ⟨some ("B"), some ("X"), none, none, some 0,
        ⟨none, none, none, none, none⟩⟩)]
      ⟨none, none, none, none, none, none, none, none, none, some true,
        none, none⟩ =
      Except.ok
        [("Name", [CellVal.str ("B")]), ("Symbol", [CellVal.str ("X")]),
         ("Supply %", [CellVal.str ("N/A")])] ∧
    C7SupplyPercent
      [("X", ⟨some ("B"), some ("X"), none, none, some 0,
        ⟨none, none, none, none, none⟩⟩)]
      [("Name", [CellVal.str ("B")]), ("Symbol", [CellVal.str ("X")]),
       ("Supply %", [CellVal.str ("N/A")])] :=
  ⟨rfl, by rfl,
    c7_supply_percent
      [("X", ⟨some ("B"), some ("X"), none, none, some 0,
        ⟨none, none, none, none, none⟩⟩)]
      ⟨none, none, none, none, none, none, none, none, none, some true,
        none, none⟩
      [("Name", [CellVal.str ("B")]), ("Symbol", [CellVal.str ("X")]),
       ("Supply %", [CellVal.str ("N/A")])]
      rfl (by rfl)⟩

/-! ### Lemmas about the archive packager's sort -/

theorem charListLe_total : ∀ as bs,
    charListLe as bs = true ∨ charListLe bs as = true := by
  intro as
  induction as with
  | nil => intro bs; exact Or.inl rfl
  | cons a as ih =>
    intro bs
    cases bs with
    | nil => exact Or.inr rfl
    | cons b bs =>
      by_cases hab : a = b
      · subst hab
        rcases ih bs with h | h
        · left
          simpa [charListLe] using h
        · right
          simpa [charListLe] using h
      · rcases lt_or_gt_of_ne hab with h | h
        · left
          simp [charListLe, hab, h]
        · right
          simp [charListLe, Ne.symm hab, h]

theorem charListLe_trans : ∀ as bs cs, charListLe as bs = true →
    charListLe bs cs = true → charListLe as cs = true := by
  intro as
  induction as with
  | nil => intro bs cs h1 h2; rfl
  | cons a as ih =>
    intro bs cs h1 h2
    cases bs with
    | nil => simp [charListLe] at h1
    | cons b bs =>
      cases cs with
      | nil => simp [charListLe] at h2
      | cons c cs =>
        simp only [charListLe] at h1 h2 ⊢
        by_cases hab : a = b
        · subst hab
          rw [if_pos rfl] at h1
          by_cases hbc : a = c
          · subst hbc
            rw [if_pos rfl] at h2 ⊢
            exact ih bs cs h1 h2
          · rw [if_neg hbc] at h2 ⊢
            exact h2
        · rw [if_neg hab] at h1
          have hlt1 : a < b := of_decide_eq_true h1
          by_cases hbc : b = c
          · subst hbc
            rw [if_neg hab]
            exact h1
          · rw [if_neg hbc] at h2
            have hlt2 : b < c := of_decide_eq_true h2
            have hac : a < c := lt_trans hlt1 hlt2
            rw [if_neg (ne_of_lt hac)]
            exact decide_eq_true hac

theorem keyLe_total (a b : Option String) :
    keyLe a b = true ∨ keyLe b a = true := by
  cases a with
  | none =>
    cases b with
    | none => exact Or.inl rfl
    | some y => exact Or.inr rfl
  | some x =>
    cases b with
    | none => exact Or.inl rfl
    | some y =>
      rcases charListLe_total y.data x.data with h | h
      · exact Or.inl h
      · exact Or.inr h

theorem keyLe_trans (a b c : Option String) (h1 : keyLe a b = true)
    (h2 : keyLe b c = true) : keyLe a c = true := by
  cases a with
  | none =>
    cases b with
    | none =>
      cases c with
      | none => rfl
      | some z => simp [keyLe] at h2
    | some y => simp [keyLe] at h1
  | some x =>
    cases b with
    | none =>
      cases c with
      | none => rfl
      | some z => simp [keyLe] at h2
    | some y =>
      cases c with
      | none => rfl
      | some z => exact charListLe_trans z.data y.data x.data h2 h1

theorem rowLe_total (hdrs : List String) (r1 r2 : List CellVal) :
    rowLe hdrs r1 r2 = true ∨ rowLe hdrs r2 r1 = true :=
  keyLe_total _ _

theorem rowLe_trans (hdrs : List String) (a b c : List CellVal)
    (h1 : rowLe hdrs a b = true) (h2 : rowLe hdrs b c = true) :
    rowLe hdrs a c = true :=
  keyLe_trans _ _ _ h1 h2

theorem insertSorted_perm {α : Type} (le : α → α → Bool) (x : α)
    (l : List α) : List.Perm (insertSorted le x l) (x :: l) := by
  induction l with
  | nil => exact List.Perm.refl _
  | cons y ys ih =>
    rw [insertSorted]
    split
    · exact List.Perm.refl _
    · exact (List.Perm.cons y ih).trans (List.Perm.swap x y ys)

theorem sortRows_perm {α : Type} (le : α → α → Bool) (l : List α) :
    List.Perm (sortRows le l) l := by
  induction l with
  | nil => exact List.Perm.refl _
  | cons x xs ih =>
    exact (insertSorted_perm le x (sortRows le xs)).trans (List.Perm.cons x ih)

theorem pairwise_insertSorted {α : Type} (le : α → α → Bool)
    (htot : ∀ a b, le a b = true ∨ le b a = true)
    (htrans : ∀ a b c, le a b = true → le b c = true → le a c = true)
    (x : α) {l : List α} (h : l.Pairwise (fun a b => le a b = true)) :
    (insertSorted le x l).Pairwise (fun a b => le a b = true) := by
  induction l with
  | nil => simp [insertSorted]
  | cons y ys ih =>
    rw [insertSorted]
    rcases List.pairwise_cons.mp h with ⟨hy, hys⟩
    split
    · rename_i hxy
      refine List.pairwise_cons.mpr ⟨?_, h⟩
      intro b hb
      rcases List.mem_cons.mp hb with rfl | hb
      · exact hxy
      · exact htrans x y b hxy (hy b hb)
    · rename_i hxy
      have hyx : le y x = true := by
        rcases htot x y with h1 | h1
        · exact absurd h1 hxy
        · exact h1
      refine List.pairwise_cons.mpr ⟨?_, ih hys⟩
      intro b hb
      have hb2 : b ∈ x :: ys := (insertSorted_perm le x ys).mem_iff.mp hb
      rcases List.mem_cons.mp hb2 with rfl | hb2
      · exact hyx
      · exact hy b hb2

theorem pairwise_sortRows {α : Type} (le : α → α → Bool)
    (htot : ∀ a b, le a b = true ∨ le b a = true)
    (htrans : ∀ a b c, le a b = true → le b c = true → le a c = true)
    (l : List α) :
    (sortRows le l).Pairwise (fun a b => le a b = true) := by
  induction l with
  | nil => simp [sortRows]
  | cons x xs ih =>
    rw [sortRows]
    exact pairwise_insertSorted le htot htrans x ih

/-! ### Claim C8 -/

/-- C8: the packager sorts the rows descending by `Name` (independently
for each serialisation), emits exactly the two files inside one
`crypto_data_<timestamp>` folder with the fixed compression method, and a
missing timestamp is generated at call time in `YYYY-MM-DD_HH-MM-SS`
shape. -/
theorem c8_archive_package (f : Frame) (timestamp : Option String)
    (now : PyDateTime) (h : "Name" ∈ f.headers) :
    C8Concl f timestamp now := by
  refine ⟨?_, sortRows_perm _ _,
    pairwise_sortRows _ (rowLe_total f.headers) (rowLe_trans f.headers)
      f.rows, ?_, ?_, ?_, ?_, ?_, ?_⟩
  · cases timestamp with
    | none => simp [zip_csv_and_xlsx, h, sort_values_desc]
    | some t => simp [zip_csv_and_xlsx, h, sort_values_desc]
  · rfl
  · rfl
  · rfl
  · rfl
  · rfl
  · rfl

theorem c8_witness :
    ("Name" ∈ (⟨["Name"], [[CellVal.str ("a")]]⟩ : Frame).headers) ∧
      C8Concl ⟨["Name"], [[CellVal.str ("a")]]⟩ none ⟨2026, 10, 12, 1, 2, 3⟩ :=
  ⟨by decide,
    c8_archive_package ⟨["Name"], [[CellVal.str ("a")]]⟩ none
      ⟨2026, 10, 12, 1, 2, 3⟩ (by decide)⟩

/-! ### Claim C10 -/

/-- C10: the packager leaves the caller's dataframe untouched — the sorts
feeding both serialisations are performed on fresh copies (pandas
`sort_values` without `inplace`), so the state after the call equals the
input. -/
theorem c10_input_frame_unchanged (f : Frame) (timestamp : Option String)
    (now : PyDateTime) : (zip_csv_and_xlsx timestamp now f).2 = f := by
  by_cases h : "Name" ∈ f.headers
  · simp [zip_csv_and_xlsx, h]
  · simp [zip_csv_and_xlsx, h]

end CryptoApp
